import Mathlib

/-!
Verification of the numeric-range engine (package `yang`, range/number code).

The Go source is shallowly embedded below.  Machine integers (`uint64`,
`int64`) are modelled as `Nat`/`Int` with explicit wrap-around (`% 2^64`)
at the one place the code can overflow (`Number.add`).  Go strings are
modelled as `List Char`; the engine only ever treats them byte-wise on
ASCII data, and non-ASCII characters fail digit classification in both
models.  The `float64` field `Decimal` is modelled as `Rat` holding the
exact value of the parsed decimal literal; binary rounding of `float64`
is not modelled — no claim below depends on rounding, only on equality
or disequality of short decimal literals, which agree in both readings.
Fallible Go functions returning `(T, error)` whose callers always check
the error are modelled as `Except String T`.
-/

namespace Yang

/-- Equality of modelled fallible results is decidable (used only to state
and check concrete evaluations). -/
instance {ε α : Type} [DecidableEq ε] [DecidableEq α] : DecidableEq (Except ε α) := fun a b =>
  match a, b with
  | Except.error e, Except.error f =>
    if h : e = f then isTrue (by rw [h])
    else isFalse (by intro hh; injection hh; contradiction)
  | Except.ok x, Except.ok y =>
    if h : x = y then isTrue (by rw [h])
    else isFalse (by intro hh; injection hh; contradiction)
  | Except.error _, Except.ok _ => isFalse (fun hh => Except.noConfusion hh)
  | Except.ok _, Except.error _ => isFalse (fun hh => Except.noConfusion hh)

/-- Go: `MaxInt64 = 1<<63 - 1` (as a signed value). -/
def MaxInt64 : Int := 2 ^ 63 - 1

/-- Go: `MinInt64 = -1 << 63`. -/
def MinInt64 : Int := -(2 ^ 63)

/-- Go: `AbsMinInt64 = 1 << 63` (absolute value of `MinInt64`, a `uint64`). -/
def AbsMinInt64 : Nat := 2 ^ 63

/-- `MaxInt64` seen as a `uint64` magnitude, for magnitude comparisons. -/
def MaxInt64Nat : Nat := 2 ^ 63 - 1

/-- Largest value of a `uint64`. -/
def MaxUint64 : Nat := 2 ^ 64 - 1

/-- Go: `type NumberKind int` with the four `iota` constants. -/
inductive NumberKind where
  | Positive
  | Negative
  | MinNumber
  | MaxNumber
deriving DecidableEq

/-- Go: `type Number struct { Kind NumberKind; Value uint64; Decimal float64 }`. -/
structure Number where
  Kind : NumberKind
  Value : Nat
  Decimal : Rat
deriving DecidableEq

/-- Go: `var maxNumber = Number{Kind: MaxNumber}`. -/
def maxNumber : Number := ⟨NumberKind.MaxNumber, 0, 0⟩

/-- Go: `var minNumber = Number{Kind: MinNumber}`. -/
def minNumber : Number := ⟨NumberKind.MinNumber, 0, 0⟩

/-- Go: `FromInt` creates a Number from an `int64`.  For the in-range
argument `i = MinInt64` the Go expression `uint64(-i)` wraps to `2^63`,
which is exactly `(-i).toNat` here. -/
def FromInt (i : Int) : Number :=
  if i < 0 then ⟨NumberKind.Negative, (-i).toNat, 0⟩
  else ⟨NumberKind.Positive, i.toNat, 0⟩

/-- Go: `FromUint` creates a Number from a `uint64`. -/
def FromUint (u : Nat) : Number := ⟨NumberKind.Positive, u, 0⟩

/-! ### Character helpers (Go treats strings as bytes; the data is ASCII) -/

/-- `unicode.IsSpace`, as used by `strings.TrimSpace`: the White_Space
property code points. -/
def isSpaceGo (c : Char) : Bool :=
  (9 ≤ c.toNat ∧ c.toNat ≤ 13) ∨ c.toNat = 32 ∨ c.toNat = 0x85 ∨ c.toNat = 0xA0 ∨
  c.toNat = 0x1680 ∨ (0x2000 ≤ c.toNat ∧ c.toNat ≤ 0x200A) ∨ c.toNat = 0x2028 ∨
  c.toNat = 0x2029 ∨ c.toNat = 0x202F ∨ c.toNat = 0x205F ∨ c.toNat = 0x3000

/-- Go: `strings.TrimSpace` — drop leading and trailing white space. -/
def trimSpace (s : List Char) : List Char :=
  ((s.dropWhile isSpaceGo).reverse.dropWhile isSpaceGo).reverse

/-- Decimal digit test `'0' <= c && c <= '9'` (byte comparison). -/
def isDigit (c : Char) : Bool := 48 ≤ c.toNat ∧ c.toNat ≤ 57

/-- The digit value strconv assigns to a byte: `0-9`, `a-z`, `A-Z`
(`lower(c) - 'a' + 10`); anything else is a syntax error. -/
def digitVal (c : Char) : Option Nat :=
  if 48 ≤ c.toNat ∧ c.toNat ≤ 57 then some (c.toNat - 48)
  else if 97 ≤ c.toNat ∧ c.toNat ≤ 122 then some (c.toNat - 97 + 10)
  else if 65 ≤ c.toNat ∧ c.toNat ≤ 90 then some (c.toNat - 65 + 10)
  else none

/-- The ASCII digit character for `d < 10` (used to model `strconv.FormatUint`). -/
def digitChar (d : Nat) : Char := Char.ofNat (48 + d)

/-- Most-significant-first decimal digits of `n`, fuel-driven so that it
reduces definitionally; `natDigits` supplies enough fuel. -/
def natDigitsAux (fuel n : Nat) : List Char :=
  match fuel with
  | 0 => []
  | f + 1 => if n = 0 then [] else natDigitsAux f (n / 10) ++ [digitChar (n % 10)]

/-- Go: `strconv.FormatUint(v, 10)`. -/
def natDigits (n : Nat) : List Char :=
  if n = 0 then ['0'] else natDigitsAux (n + 1) n

/-! ### `strconv.ParseUint(s, 0, 64)` -/

/-- `strconv`'s `underscoreOK` check on the original string: underscores
may only sit between digits, or between a base prefix and a digit.
`saw` is the last character class seen: `'^'` start, `'0'` digit or
prefix, `'_'` underscore, `'!'` other. -/
def underscoreOKLoop (hexOK : Bool) (saw : Char) : List Char → Bool
  | [] => saw ≠ '_'
  | c :: rest =>
    if (48 ≤ c.toNat ∧ c.toNat ≤ 57) ∨
        (hexOK ∧ ((97 ≤ c.toNat ∧ c.toNat ≤ 102) ∨ (65 ≤ c.toNat ∧ c.toNat ≤ 70))) then
      underscoreOKLoop hexOK '0' rest
    else if c = '_' then
      if saw ≠ '0' then false else underscoreOKLoop hexOK '_' rest
    else underscoreOKLoop hexOK '!' rest

/-- `strconv.underscoreOK` on the whole original literal. -/
def underscoreOK (s : List Char) : Bool :=
  let s1 := match s with
    | c :: rest => if c = '-' ∨ c = '+' then rest else c :: rest
    | [] => []
  match s1 with
  | '0' :: c :: rest =>
    if c = 'b' ∨ c = 'B' ∨ c = 'o' ∨ c = 'O' ∨ c = 'x' ∨ c = 'X' then
      underscoreOKLoop (c = 'x' ∨ c = 'X') '0' rest
    else underscoreOKLoop false '^' s1
  | _ => underscoreOKLoop false '^' s1

/-- The digit-accumulation loop of `strconv.ParseUint` with `base0 = true`:
skips underscores (recording that one was seen), rejects non-digits and
digits outside the base, and reports overflow past `maxVal` exactly where
Go does (`n >= cutoff` before the multiply, `n1 > maxVal` after). -/
def parseUintLoop (base maxVal : Nat) : List Char → Nat → Bool → Except String (Nat × Bool)
  | [], n, und => Except.ok (n, und)
  | c :: rest, n, und =>
    if c = '_' then parseUintLoop base maxVal rest n true
    else
      match digitVal c with
      | none => Except.error "invalid syntax"
      | some d =>
        if base ≤ d then Except.error "invalid syntax"
        else if maxVal / base + 1 ≤ n then Except.error "value out of range"
        else if maxVal < n * base + d then Except.error "value out of range"
        else parseUintLoop base maxVal rest (n * base + d) und

/-- Base detection of `strconv.ParseUint(s, 0, 64)`: `0b`/`0o`/`0x`
prefixes (needing at least one further character), a bare leading `0`
meaning octal, else decimal. -/
def parseUintSplit (s : List Char) : Nat × List Char :=
  match s with
  | c :: c2 :: rest =>
    if c = '0' then
      if (c2 = 'b' ∨ c2 = 'B') ∧ rest ≠ [] then (2, rest)
      else if (c2 = 'o' ∨ c2 = 'O') ∧ rest ≠ [] then (8, rest)
      else if (c2 = 'x' ∨ c2 = 'X') ∧ rest ≠ [] then (16, rest)
      else (8, c2 :: rest)
    else (10, c :: c2 :: rest)
  | other => (10, other)

/-- Go: `strconv.ParseUint(s, 0, 64)`. -/
def parseUint (s : List Char) : Except String Nat :=
  if s = [] then Except.error "invalid syntax"
  else
    let bd := parseUintSplit s
    match parseUintLoop bd.1 MaxUint64 bd.2 0 false with
    | Except.error e => Except.error e
    | Except.ok (n, und) =>
      if und ∧ ¬ underscoreOK s then Except.error "invalid syntax" else Except.ok n

/-! ### `strconv.ParseFloat` (decimal forms) and the `uint64(dec)` conversion -/

/-- Value of a list of decimal digit characters, most significant first. -/
def digitsVal (cs : List Char) : Nat := cs.foldl (fun a c => a * 10 + (c.toNat - 48)) 0

/-- Go: `strconv.ParseFloat(s, 64)`, modelled exactly (as a rational) for
the decimal forms `[+-] digits [. digits] [eE [+-] digits]` the engine can
meet here: the value is `sign * (int.frac) * 10^(esign*e)`, built with
`mkRat` so that it evaluates inside the kernel.  Hex-float and
`inf`/`nan` spellings, underscores, and the final rounding to binary
`float64` are not modelled; no claim depends on them. -/
def parseFloat (s : List Char) : Except String Rat :=
  let sgn : Int × List Char :=
    match s with
    | c :: rest => if c = '-' then (-1, rest) else if c = '+' then (1, rest) else (1, c :: rest)
    | [] => (1, [])
  let intPart := sgn.2.takeWhile isDigit
  let r1 := sgn.2.dropWhile isDigit
  let fr : List Char × List Char :=
    match r1 with
    | c :: rest => if c = '.' then (rest.takeWhile isDigit, rest.dropWhile isDigit) else ([], c :: rest)
    | [] => ([], [])
  if intPart = [] ∧ fr.1 = [] then Except.error "invalid syntax"
  else
    let num : Int := sgn.1 * ((digitsVal intPart * 10 ^ fr.1.length + digitsVal fr.1 : Nat) : Int)
    let den : Nat := 10 ^ fr.1.length
    match fr.2 with
    | [] => Except.ok (mkRat num den)
    | c :: rest =>
      if c = 'e' ∨ c = 'E' then
        let es : Int × List Char :=
          match rest with
          | c2 :: r => if c2 = '-' then (-1, r) else if c2 = '+' then (1, r) else (1, c2 :: r)
          | [] => (1, [])
        if es.2 = [] ∨ es.2.any (fun d => ! isDigit d) then Except.error "invalid syntax"
        else if es.1 < 0 then Except.ok (mkRat num (den * 10 ^ digitsVal es.2))
        else Except.ok (mkRat (num * ((10 ^ digitsVal es.2 : Nat) : Int)) den)
      else Except.error "invalid syntax"

/-- The Go conversion `uint64(dec)` for a `float64`: truncation toward
zero for in-range values.  For out-of-range values the Go conversion is
implementation-specific; it is modelled as `0`, and no claim depends on
that corner. -/
def u64ofRat (q : Rat) : Nat :=
  if q < 0 then 0
  else if (((2 : Nat) ^ 64 : Nat) : Rat) ≤ q then 0
  else q.num.toNat / q.den

/-! ### Splitting (`strings.Split`) -/

/-- `strings.Split(s, string(sep))` for a one-character separator. -/
def splitCharAux (sep : Char) (acc : List Char) : List Char → List (List Char)
  | [] => [acc.reverse]
  | c :: rest =>
    if c = sep then acc.reverse :: splitCharAux sep [] rest
    else splitCharAux sep (c :: acc) rest

/-- `strings.Split` on one character. -/
def splitChar (sep : Char) (s : List Char) : List (List Char) := splitCharAux sep [] s

/-- `strings.Split(s, "..")`: non-overlapping left-to-right scan. -/
def splitDotDotAux (acc : List Char) : List Char → List (List Char)
  | [] => [acc.reverse]
  | [c] => [(c :: acc).reverse]
  | c :: c2 :: rest =>
    if c = '.' ∧ c2 = '.' then acc.reverse :: splitDotDotAux [] rest
    else splitDotDotAux (c :: acc) (c2 :: rest)

/-- `strings.Split(s, "..")`. -/
def splitDotDot (s : List Char) : List (List Char) := splitDotDotAux [] s

/-! ### `ParseNumber` and the `Number` methods -/

/-- Go: `ParseNumber` — trim space, recognise `max`/`min`/empty/bare sign,
strip one sign, then either `strconv.ParseUint(s, 0, 64)` when there is no
decimal point, or `strconv.ParseFloat(s, 64)` for exactly one point. -/
def ParseNumber (s0 : List Char) : Except String Number :=
  let s := trimSpace s0
  if s = "max".toList then Except.ok maxNumber
  else if s = "min".toList then Except.ok minNumber
  else if s = [] then Except.error "converting empty string to number"
  else if s = ['+'] ∨ s = ['-'] then Except.error "sign with no value"
  else
    let ks : NumberKind × List Char :=
      match s with
      | c :: rest =>
        if c = '+' then (NumberKind.Positive, rest)
        else if c = '-' then (NumberKind.Negative, rest)
        else (NumberKind.Positive, c :: rest)
      | [] => (NumberKind.Positive, [])
    let parts := splitChar '.' ks.2
    if parts.length = 1 then
      match parseUint ks.2 with
      | Except.ok v => Except.ok ⟨ks.1, v, 0⟩
      | Except.error e => Except.error e
    else if 2 < parts.length then Except.error "can't convert to decimal: too many .s"
    else
      match parseFloat ks.2 with
      | Except.ok dec => Except.ok ⟨ks.1, u64ofRat dec, dec⟩
      | Except.error e => Except.error e

/-- Go: `Number.String` — decimal rendering (named `render` here because
`String` is the Lean string type). -/
def Number.render (n : Number) : List Char :=
  match n.Kind with
  | NumberKind.Negative => '-' :: natDigits n.Value
  | NumberKind.MinNumber => "min".toList
  | NumberKind.MaxNumber => "max".toList
  | NumberKind.Positive => natDigits n.Value

/-- Go: `Number.Int` — convert to `int64`, failing on overflow.  The
bodies avoid the bare name `Int` (resolution inside the `Number`
namespace); `Int.ofNat` is the `uint64 → int64` reading of an in-range
magnitude. -/
def Number.Int (n : Number) : Except String Int :=
  match n.Kind with
  | NumberKind.MinNumber => Except.ok MinInt64
  | NumberKind.MaxNumber => Except.ok MaxInt64
  | NumberKind.Negative =>
    if n.Value = AbsMinInt64 then Except.ok MinInt64
    else if n.Value < AbsMinInt64 then Except.ok (-(Int.ofNat n.Value))
    else Except.error "signed integer overflow"
  | NumberKind.Positive =>
    if n.Value ≤ MaxInt64Nat then Except.ok (Int.ofNat n.Value)
    else Except.error "signed integer overflow"

/-- Go: `Number.add` — add `i` without overflow checking (`uint64`
addition wraps, hence the `% 2^64`); sentinels absorb; a Negative value
crosses zero to Positive when its magnitude is at most `i`. -/
def Number.add (n : Number) (i : Nat) : Number :=
  match n.Kind with
  | NumberKind.MinNumber => n
  | NumberKind.MaxNumber => n
  | NumberKind.Negative =>
    if n.Value ≤ i then ⟨NumberKind.Positive, i - n.Value, n.Decimal⟩
    else ⟨NumberKind.Negative, n.Value - i, n.Decimal⟩
  | NumberKind.Positive => ⟨NumberKind.Positive, (n.Value + i) % 2 ^ 64, n.Decimal⟩

/-- Go: `Number.Less` — sentinels first, then sign, then magnitude
(inverted for negatives).  `Decimal` is never consulted. -/
def Number.Less (n m : Number) : Bool :=
  if m.Kind = NumberKind.MinNumber then false
  else if n.Kind = NumberKind.MinNumber then true
  else if n.Kind = NumberKind.MaxNumber then false
  else if m.Kind = NumberKind.MaxNumber then true
  else if n.Kind = NumberKind.Negative ∧ m.Kind ≠ NumberKind.Negative then true
  else if n.Kind ≠ NumberKind.Negative ∧ m.Kind = NumberKind.Negative then false
  else if n.Kind = NumberKind.Negative then decide (m.Value < n.Value)
  else decide (n.Value < m.Value)

/-- Go: `Number.Equal` — structural equality `n == m` (all three fields). -/
def Number.Equal (n m : Number) : Bool := decide (n = m)

/-! ### Ranges -/

/-- Go: `type YRange struct { Min, Max Number }`. -/
structure YRange where
  Min : Number
  Max : Number
deriving DecidableEq

/-- Go: `YRange.Valid` — false iff `Max < Min`. -/
def YRange.Valid (r : YRange) : Bool := ! r.Max.Less r.Min

/-- Go: `type YangRange []YRange`. -/
abbrev YangRange := List YRange

/-- Go: `YangRange.Less(i, j)` — order by `Min`, ties by `Max`. -/
def rangeLt (a b : YRange) : Bool :=
  if a.Min.Less b.Min then true
  else if b.Min.Less a.Min then false
  else a.Max.Less b.Max

/-- The non-strict companion of `rangeLt`, used to run the sort. -/
def rangeLE (a b : YRange) : Prop := rangeLt b a = false

instance : DecidableRel rangeLE := fun a b => inferInstanceAs (Decidable (rangeLt b a = false))

/-- Go: `sort.Sort(r)` with `YangRange`'s `Less`.  Go does not fix the
order of ties; insertion sort realises one valid outcome, and no claim
depends on tie order. -/
def sortRanges (r : YangRange) : YangRange := List.insertionSort rangeLE r

/-- The checks `YangRange.Validate` runs on the already-sorted array:
empty is fine; the first range must be `Valid`; every later range's `Min`
is compared against the high of `p`, where `p` is set to `r[0]` and never
advanced. -/
def validateCheck : YangRange → Option String
  | [] => none
  | p :: rest =>
    if p.Valid = false then some "invalid number"
    else if rest.any (fun n => n.Min.Less p.Max) then some "overlapping ranges"
    else none

/-- Go: `YangRange.Validate` — sorts in place, then runs `validateCheck`.
The returned list is the sorted array (Go mutates its operand in place). -/
def YangRange.Validate (r : YangRange) : YangRange × Option String :=
  (sortRanges r, validateCheck (sortRanges r))

/-- The loop of Go's `coalesce`: `cur` is `cr[i]`, `done` the closed
ranges in reverse order.  A new range opens when `cur.Max + 1 < next.Min`;
otherwise `cur.Max` is extended when `next.Max` exceeds it. -/
def coalesceLoop : YRange → List YRange → List YRange → List YRange
  | cur, done, [] => (cur :: done).reverse
  | cur, done, r1 :: rest =>
    if (cur.Max.add 1).Less r1.Min then coalesceLoop r1 (cur :: done) rest
    else if cur.Max.Less r1.Max then coalesceLoop ⟨cur.Min, r1.Max⟩ done rest
    else coalesceLoop cur done rest

/-- Go: `coalesce` — the identity on fewer than two ranges, else the loop
above started at `r[0]`. -/
def coalesce : YangRange → YangRange
  | [] => []
  | [r] => [r]
  | r0 :: r1 :: rest => coalesceLoop r0 [] (r1 :: rest)

/-- One member of a range expression: split on `".."`, parse the low
bound first (its error wins), then resolve the high bound by part count,
and reject `max < min`.  Error strings abbreviate Go's formatted ones. -/
def parseYRange (p : List Char) : Except String YRange :=
  match splitDotDot p with
  | [] => Except.error "impossible: Split returns a nonempty list"
  | a :: restParts =>
    match ParseNumber a with
    | Except.error e => Except.error e
    | Except.ok mn =>
      let mxE : Except String Number :=
        match restParts with
        | [] => Except.ok mn
        | [b] => ParseNumber b
        | _ => Except.error "two many ..'s in range"
      match mxE with
      | Except.error e => Except.error e
      | Except.ok mx =>
        if mx.Less mn then Except.error "max less than min" else Except.ok ⟨mn, mx⟩

/-- Parse every `|`-separated member in order, stopping at the first error. -/
def parseParts : List (List Char) → Except String (List YRange)
  | [] => Except.ok []
  | p :: ps =>
    match parseYRange p with
    | Except.error e => Except.error e
    | Except.ok r =>
      match parseParts ps with
      | Except.error e => Except.error e
      | Except.ok rs => Except.ok (r :: rs)

/-- Go: `ParseRanges` — split on `|`, parse each member, `Validate`, then
`coalesce` the (now sorted) set. -/
def ParseRanges (s : List Char) : Except String YangRange :=
  match parseParts (splitChar '|' s) with
  | Except.error e => Except.error e
  | Except.ok rs =>
    match YangRange.Validate rs with
    | (_, some e) => Except.error e
    | (rs1, none) => Except.ok (coalesce rs1)

/-- The base-advance step of Go's `Contains`: pull ranges while the
current one ends below `mn`; `none` models the channel running dry
(`return false`). -/
def advanceBase (mn : Number) : YRange → List YRange → Option (YRange × List YRange)
  | rr, [] => if rr.Max.Less mn then none else some (rr, [])
  | rr, x :: xs => if rr.Max.Less mn then advanceBase mn x xs else some (rr, x :: xs)

/-- The candidate loop of Go's `Contains`: `rr`/`rest` are the current
base range and the unread tail of the channel. -/
def containsLoop : YRange → List YRange → List YRange → Bool
  | _, _, [] => true
  | rr, rest, ss :: sss =>
    match (if ss.Min.Kind ≠ NumberKind.MinNumber then advanceBase ss.Min rr rest
           else some (rr, rest)) with
    | none => false
    | some (rr1, rest1) =>
      if ss.Max.Kind = NumberKind.MaxNumber ∨ ss.Min.Kind = NumberKind.MinNumber then
        containsLoop rr1 rest1 sss
      else if ss.Min.Less rr1.Min ∨ rr1.Max.Less ss.Max then false
      else containsLoop rr1 rest1 sss

/-- Go: `YangRange.Contains` — true when every value of `s` is a value of
`r`; empty on either side is immediately true.  The Go channel/goroutine
is pure sequencing and is modelled as the two-cursor walk above. -/
def YangRange.Contains (r s : YangRange) : Bool :=
  match s, r with
  | [], _ => true
  | _, [] => true
  | ss, rr0 :: rrest => containsLoop rr0 rrest ss

/-! ### Constructibility -/

/-- Values reachable through the `Number` constructors named by the
claims: `FromInt` on an `int64`, `FromUint` on a `uint64`, or a
successful `ParseNumber`. -/
def Constructible (n : Number) : Prop :=
  (∃ i : Int, MinInt64 ≤ i ∧ i ≤ MaxInt64 ∧ n = FromInt i) ∨
  (∃ u : Nat, u ≤ MaxUint64 ∧ n = FromUint u) ∨
  (∃ s : List Char, ParseNumber s = Except.ok n)

/-- Structural facts every constructible value satisfies: a sentinel kind
forces the canonical sentinel value, and the magnitude fits a `uint64`. -/
def Number.Wf (n : Number) : Prop :=
  (n.Kind = NumberKind.MinNumber → n = minNumber) ∧
  (n.Kind = NumberKind.MaxNumber → n = maxNumber) ∧
  n.Value ≤ MaxUint64

/-! ### Lemmas: coalesce -/

/-- The invariant `coalesce` maintains between consecutive output ranges:
the left one ends strictly more than one below where the right one starts. -/
def gapped (a b : YRange) : Prop := (a.Max.add 1).Less b.Min = true

lemma coalesceLoop_chain (l : List YRange) : ∀ cur done,
    List.Chain' gapped (cur :: done).reverse →
    List.Chain' gapped (coalesceLoop cur done l) := by
  induction l with
  | nil => intro cur done h; simpa [coalesceLoop] using h
  | cons r1 rest ih =>
    intro cur done h
    rw [coalesceLoop]
    by_cases hg : (cur.Max.add 1).Less r1.Min = true
    · rw [if_pos hg]
      refine ih r1 (cur :: done) ?_
      rw [List.reverse_cons]
      refine List.chain'_append.mpr ⟨h, List.chain'_singleton r1, ?_⟩
      intro x hx y hy
      rw [List.getLast?_reverse] at hx
      simp only [List.head?_cons, Option.mem_def, Option.some.injEq] at hx hy
      subst hx; subst hy; exact hg
    · rw [if_neg hg]
      by_cases hm : cur.Max.Less r1.Max = true
      · rw [if_pos hm]
        refine ih ⟨cur.Min, r1.Max⟩ done ?_
        rw [List.reverse_cons] at h ⊢
        rcases List.chain'_append.mp h with ⟨h1, _, h3⟩
        refine List.chain'_append.mpr ⟨h1, List.chain'_singleton _, ?_⟩
        intro x hx y hy
        simp only [List.head?_cons, Option.mem_def, Option.some.injEq] at hy
        subst hy
        exact h3 x hx cur (by simp)
      · rw [if_neg hm]; exact ih cur done h

lemma coalesceLoop_of_chain (l : List YRange) : ∀ cur done,
    List.Chain' gapped (cur :: l) →
    coalesceLoop cur done l = (cur :: done).reverse ++ l := by
  induction l with
  | nil => intro cur done _; simp [coalesceLoop]
  | cons r1 rest ih =>
    intro cur done h
    rcases List.chain'_cons.mp h with ⟨hg, ht⟩
    have hg1 : (cur.Max.add 1).Less r1.Min = true := hg
    rw [coalesceLoop, if_pos hg1, ih r1 (cur :: done) ht]
    simp

lemma coalesce_gapped (r : YangRange) : List.Chain' gapped (coalesce r) := by
  match r with
  | [] => exact List.chain'_nil
  | [x] => exact List.chain'_singleton x
  | r0 :: r1 :: rest =>
    rw [coalesce]
    exact coalesceLoop_chain (r1 :: rest) r0 [] (List.chain'_singleton r0)

lemma coalesceLoop_ne_nil (l : List YRange) : ∀ cur done, coalesceLoop cur done l ≠ [] := by
  induction l with
  | nil => intro cur done; simp [coalesceLoop]
  | cons r1 rest ih =>
    intro cur done
    rw [coalesceLoop]
    by_cases hg : (cur.Max.add 1).Less r1.Min = true
    · rw [if_pos hg]; exact ih r1 (cur :: done)
    · rw [if_neg hg]
      by_cases hm : cur.Max.Less r1.Max = true
      · rw [if_pos hm]; exact ih ⟨cur.Min, r1.Max⟩ done
      · rw [if_neg hm]; exact ih cur done

/-- `coalesce` is idempotent on every list of ranges: its output satisfies
the gap invariant above, and on gapped input the loop copies its input. -/
lemma coalesce_idem (r : YangRange) : coalesce (coalesce r) = coalesce r := by
  match r with
  | [] => rfl
  | [x] => rfl
  | r0 :: r1 :: rest =>
    have hch := coalesce_gapped (r0 :: r1 :: rest)
    have hne : coalesce (r0 :: r1 :: rest) ≠ [] := by
      rw [coalesce]; exact coalesceLoop_ne_nil (r1 :: rest) r0 []
    rcases hc : coalesce (r0 :: r1 :: rest) with _ | ⟨c0, ctail⟩
    · exact absurd hc hne
    · rcases ctail with _ | ⟨c1, ct⟩
      · rfl
      · rw [hc] at hch
        rw [coalesce, coalesceLoop_of_chain (c1 :: ct) c0 [] hch]
        simp

/-! ### Lemmas: sorting -/

lemma validate_fst (r : YangRange) : (YangRange.Validate r).1 = sortRanges r := rfl

/-- The sorted array `Validate` works on (and hands back, Go mutating in
place) is a permutation of the input: sorting is the only edit. -/
lemma validate_perm (r : YangRange) : List.Perm ((YangRange.Validate r).1) r := by
  rw [validate_fst]
  exact List.perm_insertionSort rangeLE r

/-! ### Lemmas: trimming -/

lemma dropWhile_dropWhile (p : Char → Bool) (l : List Char) :
    List.dropWhile p (List.dropWhile p l) = List.dropWhile p l := by
  induction l with
  | nil => rfl
  | cons c cs ih =>
    by_cases hc : p c = true
    · simp [List.dropWhile_cons, hc, ih]
    · simp [List.dropWhile_cons, hc]

lemma head_dropWhile_false (p : Char → Bool) (l : List Char) (c : Char)
    (h : (List.dropWhile p l).head? = some c) : p c = false := by
  induction l with
  | nil => simp at h
  | cons d ds ih =>
    rw [List.dropWhile_cons] at h
    by_cases hd : p d = true
    · rw [if_pos hd] at h; exact ih h
    · rw [if_neg hd] at h
      simp only [List.head?_cons, Option.some.injEq] at h
      subst h
      exact Bool.not_eq_true _ ▸ hd

lemma dropWhile_of_head_false (p : Char → Bool) (l : List Char)
    (h : ∀ c, l.head? = some c → p c = false) : List.dropWhile p l = l := by
  cases l with
  | nil => rfl
  | cons c cs =>
    rw [List.dropWhile_cons, if_neg]
    rw [h c rfl]
    exact Bool.false_ne_true

lemma getLast?_dropWhile (p : Char → Bool) (l : List Char)
    (h : List.dropWhile p l ≠ []) :
    (List.dropWhile p l).getLast? = l.getLast? := by
  induction l with
  | nil => rfl
  | cons c cs ih =>
    rw [List.dropWhile_cons]
    by_cases hc : p c = true
    · rw [List.dropWhile_cons, if_pos hc] at h
      rw [if_pos hc, ih h]
      cases hcs : cs with
      | nil => rw [hcs] at h; exact absurd (by simp) h
      | cons d ds => simp
    · rw [if_neg hc]

lemma trimSpace_idem (l : List Char) : trimSpace (trimSpace l) = trimSpace l := by
  rw [trimSpace, trimSpace]
  have h1 : (((l.dropWhile isSpaceGo).reverse.dropWhile isSpaceGo).reverse).dropWhile isSpaceGo
      = ((l.dropWhile isSpaceGo).reverse.dropWhile isSpaceGo).reverse := by
    apply dropWhile_of_head_false
    intro c hc
    by_cases hb : (l.dropWhile isSpaceGo).reverse.dropWhile isSpaceGo = []
    · rw [hb] at hc; simp at hc
    · rw [List.head?_reverse, getLast?_dropWhile _ _ hb, List.getLast?_reverse] at hc
      exact head_dropWhile_false _ _ _ hc
  rw [h1, List.reverse_reverse, dropWhile_dropWhile]

/-! ### Lemmas: wellformedness of constructible values -/

lemma parseUintLoop_ok_le (base maxV : Nat) :
    ∀ (cs : List Char) (n : Nat) (und : Bool) (v : Nat) (u : Bool),
    n ≤ maxV → parseUintLoop base maxV cs n und = Except.ok (v, u) → v ≤ maxV := by
  intro cs
  induction cs with
  | nil =>
    intro n und v u hn h
    rw [parseUintLoop] at h
    simp only [Except.ok.injEq, Prod.mk.injEq] at h
    rw [← h.1]
    exact hn
  | cons c rest ih =>
    intro n und v u hn h
    rw [parseUintLoop] at h
    by_cases hc : c = '_'
    · rw [if_pos hc] at h; exact ih n true v u hn h
    · rw [if_neg hc] at h
      cases hd : digitVal c with
      | none => rw [hd] at h; simp at h
      | some d =>
        rw [hd] at h
        dsimp only at h
        by_cases h1 : base ≤ d
        · rw [if_pos h1] at h; simp at h
        · rw [if_neg h1] at h
          by_cases h2 : maxV / base + 1 ≤ n
          · rw [if_pos h2] at h; simp at h
          · rw [if_neg h2] at h
            by_cases h3 : maxV < n * base + d
            · rw [if_pos h3] at h; simp at h
            · rw [if_neg h3] at h
              exact ih _ _ v u (Nat.le_of_not_lt h3) h

lemma parseUint_ok_le (s : List Char) (v : Nat) (h : parseUint s = Except.ok v) :
    v ≤ MaxUint64 := by
  rw [parseUint] at h
  by_cases hs : s = []
  · rw [if_pos hs] at h; simp at h
  · rw [if_neg hs] at h
    simp only at h
    cases hpl : parseUintLoop (parseUintSplit s).1 MaxUint64 (parseUintSplit s).2 0 false with
    | error e => rw [hpl] at h; simp at h
    | ok p =>
      obtain ⟨pv, pu⟩ := p
      rw [hpl] at h
      dsimp only at h
      by_cases hu : pu = true ∧ ¬ underscoreOK s = true
      · rw [if_pos hu] at h; simp at h
      · rw [if_neg hu] at h
        simp only [Except.ok.injEq] at h
        rw [← h]
        exact parseUintLoop_ok_le _ _ _ 0 false pv pu (Nat.zero_le _) hpl

lemma u64ofRat_le (q : Rat) : u64ofRat q ≤ MaxUint64 := by
  rw [u64ofRat]
  by_cases h0 : q < 0
  · rw [if_pos h0]; exact Nat.zero_le _
  · rw [if_neg h0]
    by_cases h1 : (((2 : Nat) ^ 64 : Nat) : Rat) ≤ q
    · rw [if_pos h1]; exact Nat.zero_le _
    · rw [if_neg h1]
      have hq : q < (((2 : Nat) ^ 64 : Nat) : Rat) := lt_of_not_le h1
      have hden : (0 : Rat) < (q.den : Rat) := by
        exact_mod_cast q.den_pos
      have hnum : (q.num : Rat) = q * (q.den : Rat) :=
        (div_eq_iff (ne_of_gt hden)).mp (Rat.num_div_den q)
      have h2 : (q.num : Rat) < (((2 : Nat) ^ 64 : Nat) : Rat) * (q.den : Rat) := by
        rw [hnum]
        exact mul_lt_mul_of_pos_right hq hden
      have h3 : q.num < ((2 : Nat) ^ 64 : Nat) * (q.den : Int) := by exact_mod_cast h2
      have hdp : 0 < q.den := q.den_pos
      have h4 : q.num.toNat < 2 ^ 64 * q.den := by omega
      have h5 : q.num.toNat / q.den < 2 ^ 64 :=
        (Nat.div_lt_iff_lt_mul q.den_pos).mpr (by omega)
      rw [MaxUint64]
      omega

lemma fromInt_wf (i : Int) (h1 : MinInt64 ≤ i) (h2 : i ≤ MaxInt64) : (FromInt i).Wf := by
  rw [FromInt]
  rw [MinInt64] at h1
  rw [MaxInt64] at h2
  by_cases hi : i < 0
  · rw [if_pos hi]
    refine ⟨by simp, by simp, ?_⟩
    show (-i).toNat ≤ MaxUint64
    rw [MaxUint64]
    omega
  · rw [if_neg hi]
    refine ⟨by simp, by simp, ?_⟩
    show i.toNat ≤ MaxUint64
    rw [MaxUint64]
    omega

lemma fromUint_wf (u : Nat) (h : u ≤ MaxUint64) : (FromUint u).Wf :=
  ⟨by simp [FromUint], by simp [FromUint], h⟩

lemma parseNumber_wf (s : List Char) (n : Number) (h : ParseNumber s = Except.ok n) :
    n.Wf := by
  rw [ParseNumber] at h
  by_cases hmax : trimSpace s = "max".toList
  · rw [if_pos hmax] at h
    simp only [Except.ok.injEq] at h
    rw [← h]
    exact ⟨by simp [maxNumber], fun _ => rfl, by decide⟩
  · rw [if_neg hmax] at h
    by_cases hmin : trimSpace s = "min".toList
    · rw [if_pos hmin] at h
      simp only [Except.ok.injEq] at h
      rw [← h]
      exact ⟨fun _ => rfl, by simp [minNumber], by decide⟩
    · rw [if_neg hmin] at h
      by_cases hemp : trimSpace s = []
      · rw [if_pos hemp] at h; simp at h
      · rw [if_neg hemp] at h
        by_cases hsign : trimSpace s = ['+'] ∨ trimSpace s = ['-']
        · rw [if_pos hsign] at h; simp at h
        · rw [if_neg hsign] at h
          simp only at h
          -- the (kind, remainder) pair produced by the sign strip
          have hkind : ∀ ks : NumberKind × List Char,
              (ks.1 = NumberKind.Positive ∨ ks.1 = NumberKind.Negative) →
              (if (splitChar '.' ks.2).length = 1 then
                  match parseUint ks.2 with
                  | Except.ok v => Except.ok (⟨ks.1, v, 0⟩ : Number)
                  | Except.error e => Except.error e
                else if 2 < (splitChar '.' ks.2).length then
                  Except.error "can't convert to decimal: too many .s"
                else
                  match parseFloat ks.2 with
                  | Except.ok dec => Except.ok (⟨ks.1, u64ofRat dec, dec⟩ : Number)
                  | Except.error e => Except.error e) = Except.ok n → n.Wf := by
            intro ks hk hh
            by_cases hlen : (splitChar '.' ks.2).length = 1
            · rw [if_pos hlen] at hh
              cases hpu : parseUint ks.2 with
              | error e => rw [hpu] at hh; simp at hh
              | ok v =>
                rw [hpu] at hh
                simp only [Except.ok.injEq] at hh
                rw [← hh]
                rcases hk with hk | hk <;>
                  exact ⟨by simp [hk], by simp [hk], parseUint_ok_le _ _ hpu⟩
            · rw [if_neg hlen] at hh
              by_cases hlen2 : 2 < (splitChar '.' ks.2).length
              · rw [if_pos hlen2] at hh; simp at hh
              · rw [if_neg hlen2] at hh
                cases hpf : parseFloat ks.2 with
                | error e => rw [hpf] at hh; simp at hh
                | ok dec =>
                  rw [hpf] at hh
                  simp only [Except.ok.injEq] at hh
                  rw [← hh]
                  rcases hk with hk | hk <;>
                    exact ⟨by simp [hk], by simp [hk], u64ofRat_le dec⟩
          cases hts : trimSpace s with
          | nil => exact absurd hts hemp
          | cons c rest =>
            rw [hts] at h
            dsimp only at h
            by_cases hplus : c = '+'
            · rw [if_pos hplus] at h
              exact hkind (NumberKind.Positive, rest) (Or.inl rfl) h
            · rw [if_neg hplus] at h
              by_cases hminus : c = '-'
              · rw [if_pos hminus] at h
                exact hkind (NumberKind.Negative, rest) (Or.inr rfl) h
              · rw [if_neg hminus] at h
                exact hkind (NumberKind.Positive, c :: rest) (Or.inl rfl) h

lemma constructible_wf (n : Number) (h : Constructible n) : n.Wf := by
  rcases h with ⟨i, h1, h2, rfl⟩ | ⟨u, h1, rfl⟩ | ⟨s, hs⟩
  · exact fromInt_wf i h1 h2
  · exact fromUint_wf u h1
  · exact parseNumber_wf s n hs

/-! ### Lemmas: ordering -/

lemma wf_trichotomy (a b : Number) (ha : a.Wf) (hb : b.Wf)
    (hda : a.Decimal = 0) (hdb : b.Decimal = 0) :
    (a.Less b = true ∧ a.Equal b = false ∧ b.Less a = false) ∨
    (a.Less b = false ∧ a.Equal b = true ∧ b.Less a = false) ∨
    (a.Less b = false ∧ a.Equal b = false ∧ b.Less a = true) := by
  rcases a with ⟨ka, va, da⟩
  rcases b with ⟨kb, vb, db⟩
  simp only at hda hdb
  subst hda
  subst hdb
  cases ka <;> cases kb <;>
    simp_all [Number.Wf, Number.Less, Number.Equal, minNumber, maxNumber,
      Number.mk.injEq] <;>
    omega

lemma wf_min_le (a : Number) (ha : a.Wf) :
    minNumber.Less a = true ∨ minNumber.Equal a = true := by
  rcases a with ⟨ka, va, da⟩
  cases ka <;>
    simp_all [Number.Wf, Number.Less, Number.Equal, minNumber, maxNumber, Number.mk.injEq]

lemma wf_le_max (a : Number) (ha : a.Wf) :
    a.Less maxNumber = true ∨ a.Equal maxNumber = true := by
  rcases a with ⟨ka, va, da⟩
  cases ka <;>
    simp_all [Number.Wf, Number.Less, Number.Equal, minNumber, maxNumber, Number.mk.injEq]

/-! ### Lemmas: decimal digits round-trip -/

lemma digitChar_facts (d : Nat) (hd : d < 10) :
    digitVal (digitChar d) = some d ∧ digitChar d ≠ '_' ∧ digitChar d ≠ '.' ∧
    digitChar d ≠ '+' ∧ digitChar d ≠ '-' ∧ digitChar d ≠ 'm' ∧
    isSpaceGo (digitChar d) = false := by
  interval_cases d <;> exact ⟨rfl, by decide, by decide, by decide, by decide, by decide,
    by decide⟩

lemma digitChar_ne_zero (d : Nat) (h1 : 1 ≤ d) (hd : d < 10) : digitChar d ≠ '0' := by
  interval_cases d <;> decide

lemma natDigitsAux_zero (f : Nat) : natDigitsAux f 0 = [] := by
  cases f <;> simp [natDigitsAux]

lemma natDigitsAux_mem (f : Nat) : ∀ n c, c ∈ natDigitsAux f n →
    ∃ d, d < 10 ∧ c = digitChar d := by
  induction f with
  | zero => intro n c hc; simp [natDigitsAux] at hc
  | succ f ih =>
    intro n c hc
    rw [natDigitsAux] at hc
    by_cases h0 : n = 0
    · rw [if_pos h0] at hc; simp at hc
    · rw [if_neg h0] at hc
      rcases List.mem_append.mp hc with h | h
      · exact ih _ c h
      · simp only [List.mem_singleton] at h
        exact ⟨n % 10, Nat.mod_lt _ (by norm_num), h⟩

lemma natDigitsAux_head (f : Nat) : ∀ n, 0 < n → n ≤ f →
    ∃ d cs, 1 ≤ d ∧ d < 10 ∧ natDigitsAux f n = digitChar d :: cs := by
  induction f with
  | zero => intro n h0 hf; omega
  | succ f ih =>
    intro n h0 hf
    rw [natDigitsAux, if_neg (by omega)]
    by_cases h10 : n / 10 = 0
    · rw [h10, natDigitsAux_zero]
      exact ⟨n % 10, [], by omega, Nat.mod_lt _ (by norm_num), by simp⟩
    · obtain ⟨d, cs, hd1, hd9, heq⟩ := ih (n / 10) (Nat.pos_of_ne_zero h10) (by omega)
      exact ⟨d, cs ++ [digitChar (n % 10)], hd1, hd9, by rw [heq]; simp⟩

lemma natDigits_mem (v : Nat) (c : Char) (hc : c ∈ natDigits v) :
    ∃ d, d < 10 ∧ c = digitChar d := by
  rw [natDigits] at hc
  by_cases h0 : v = 0
  · rw [if_pos h0] at hc
    simp only [List.mem_singleton] at hc
    exact ⟨0, by norm_num, by rw [hc]; rfl⟩
  · rw [if_neg h0] at hc
    exact natDigitsAux_mem _ _ c hc

lemma natDigits_ne_nil (v : Nat) : natDigits v ≠ [] := by
  rw [natDigits]
  by_cases h0 : v = 0
  · rw [if_pos h0]; simp
  · rw [if_neg h0]
    obtain ⟨d, cs, _, _, heq⟩ := natDigitsAux_head (v + 1) v (Nat.pos_of_ne_zero h0)
      (Nat.le_succ v)
    rw [heq]; simp

lemma dropWhile_of_all_false (p : Char → Bool) (l : List Char)
    (h : ∀ c ∈ l, p c = false) : List.dropWhile p l = l := by
  cases l with
  | nil => rfl
  | cons c cs =>
    rw [List.dropWhile_cons, if_neg]
    rw [h c (List.mem_cons_self c cs)]
    exact Bool.false_ne_true

lemma trimSpace_of_all_nonspace (l : List Char) (h : ∀ c ∈ l, isSpaceGo c = false) :
    trimSpace l = l := by
  rw [trimSpace, dropWhile_of_all_false _ _ h,
    dropWhile_of_all_false _ _ (fun c hc => h c (List.mem_reverse.mp hc)),
    List.reverse_reverse]

lemma splitCharAux_no_sep (sep : Char) (l : List Char) (h : ∀ c ∈ l, c ≠ sep) :
    ∀ acc, splitCharAux sep acc l = [acc.reverse ++ l] := by
  induction l with
  | nil => intro acc; simp [splitCharAux]
  | cons c cs ih =>
    intro acc
    rw [splitCharAux, if_neg (h c (List.mem_cons_self c cs))]
    rw [ih (fun x hx => h x (List.mem_cons_of_mem c hx)) (c :: acc)]
    simp

lemma parseUintLoop_append (base maxV : Nat) (xs : List Char) : ∀ ys n und,
    parseUintLoop base maxV (xs ++ ys) n und =
      match parseUintLoop base maxV xs n und with
      | Except.ok p => parseUintLoop base maxV ys p.1 p.2
      | Except.error e => Except.error e := by
  induction xs with
  | nil => intro ys n und; rfl
  | cons c rest ih =>
    intro ys n und
    rw [List.cons_append, parseUintLoop, parseUintLoop]
    by_cases hc : c = '_'
    · rw [if_pos hc, if_pos hc, ih]
    · rw [if_neg hc, if_neg hc]
      cases hd : digitVal c with
      | none => rfl
      | some d =>
        dsimp only
        by_cases h1 : base ≤ d
        · rw [if_pos h1, if_pos h1]
        · rw [if_neg h1, if_neg h1]
          by_cases h2 : maxV / base + 1 ≤ n
          · rw [if_pos h2, if_pos h2]
          · rw [if_neg h2, if_neg h2]
            by_cases h3 : maxV < n * base + d
            · rw [if_pos h3, if_pos h3]
            · rw [if_neg h3, if_neg h3, ih]

lemma parseUintLoop_single (d acc : Nat) (und : Bool) (hd : d < 10)
    (hb : acc * 10 + d ≤ MaxUint64) :
    parseUintLoop 10 MaxUint64 [digitChar d] acc und = Except.ok (acc * 10 + d, und) := by
  obtain ⟨hval, hund, _, _, _, _, _⟩ := digitChar_facts d hd
  rw [parseUintLoop, if_neg hund, hval]
  dsimp only
  rw [if_neg (by omega)]
  have hcut : ¬ (MaxUint64 / 10 + 1 ≤ acc) := by
    have : acc ≤ MaxUint64 / 10 := (Nat.le_div_iff_mul_le (by norm_num)).mpr (by omega)
    omega
  rw [if_neg hcut, if_neg (by omega)]
  rfl

lemma parseUintLoop_natDigitsAux (f : Nat) : ∀ n acc und, 0 < n → n ≤ f →
    acc * 10 ^ (natDigitsAux f n).length + n ≤ MaxUint64 →
    parseUintLoop 10 MaxUint64 (natDigitsAux f n) acc und
      = Except.ok (acc * 10 ^ (natDigitsAux f n).length + n, und) := by
  induction f with
  | zero => intro n acc und h0 hf; omega
  | succ f ih =>
    intro n acc und h0 hf hb
    have hrw : natDigitsAux (f + 1) n
        = natDigitsAux f (n / 10) ++ [digitChar (n % 10)] := by
      rw [natDigitsAux, if_neg (by omega)]
    rw [hrw] at hb ⊢
    by_cases h10 : n / 10 = 0
    · rw [h10, natDigitsAux_zero] at hb ⊢
      simp only [List.nil_append, List.length_singleton, pow_one] at hb ⊢
      have hn10 : n < 10 := by omega
      have : n % 10 = n := Nat.mod_eq_of_lt hn10
      rw [parseUintLoop_single (n % 10) acc und (Nat.mod_lt _ (by norm_num)) (by omega)]
      rw [this]
    · have hpos : 0 < n / 10 := Nat.pos_of_ne_zero h10
      have hle : n / 10 ≤ f := by omega
      have hlen : (natDigitsAux f (n / 10) ++ [digitChar (n % 10)]).length
          = (natDigitsAux f (n / 10)).length + 1 := by simp
      rw [hlen] at hb
      have hsplit : (acc * 10 ^ ((natDigitsAux f (n / 10)).length + 1) + n)
          = (acc * 10 ^ (natDigitsAux f (n / 10)).length + n / 10) * 10 + n % 10 := by
        rw [pow_succ]
        have := Nat.div_add_mod n 10
        ring_nf
        omega
      have hbound : acc * 10 ^ (natDigitsAux f (n / 10)).length + n / 10 ≤ MaxUint64 := by
        rw [hsplit] at hb
        omega
      rw [parseUintLoop_append, ih (n / 10) acc und hpos hle hbound]
      dsimp only
      rw [parseUintLoop_single (n % 10) _ und (Nat.mod_lt _ (by norm_num))
        (by rw [hsplit] at hb; omega)]
      rw [hlen, hsplit]

lemma parseUintSplit_of_head_ne_zero (c : Char) (cs : List Char) (hc : c ≠ '0') :
    parseUintSplit (c :: cs) = (10, c :: cs) := by
  cases cs with
  | nil => rfl
  | cons c2 rest => rw [parseUintSplit, if_neg hc]

lemma parseUint_natDigits (v : Nat) (hv : v ≤ MaxUint64) :
    parseUint (natDigits v) = Except.ok v := by
  by_cases h0 : v = 0
  · subst h0; decide
  · have hnd0 : natDigits v = natDigitsAux (v + 1) v := by rw [natDigits, if_neg h0]
    obtain ⟨d, cs, hd1, hd9, heq⟩ :=
      natDigitsAux_head (v + 1) v (Nat.pos_of_ne_zero h0) (Nat.le_succ v)
    have hnd : natDigits v = digitChar d :: cs := by rw [hnd0, heq]
    rw [parseUint, if_neg (by rw [hnd]; simp)]
    simp only
    rw [hnd, parseUintSplit_of_head_ne_zero _ _ (digitChar_ne_zero d hd1 hd9), ← hnd, hnd0]
    rw [parseUintLoop_natDigitsAux (v + 1) v 0 false (Nat.pos_of_ne_zero h0) (Nat.le_succ v)
      (by simpa using hv)]
    simp

/-- The sign-stripped, trimmed rendering of a zero-`Decimal` magnitude
parses back to exactly the original `Number`. -/
lemma parseNumber_render (v : Number) (hwf : v.Wf) (hd : v.Decimal = 0) :
    ParseNumber (Number.render v) = Except.ok v := by
  rcases v with ⟨k, val, dec⟩
  simp only at hd
  subst hd
  have hmemfacts : ∀ c ∈ natDigits val,
      c ≠ '.' ∧ c ≠ '+' ∧ c ≠ '-' ∧ c ≠ 'm' ∧ isSpaceGo c = false := by
    intro c hc
    obtain ⟨d, hd10, rfl⟩ := natDigits_mem val c hc
    obtain ⟨_, _, h3, h4, h5, h6, h7⟩ := digitChar_facts d hd10
    exact ⟨h3, h4, h5, h6, h7⟩
  cases k
  · -- Positive: render is the bare digit string
    by_cases h0 : val = 0
    · subst h0; decide
    · have hval : val ≤ MaxUint64 := hwf.2.2
      show ParseNumber (natDigits val) = Except.ok ⟨NumberKind.Positive, val, 0⟩
      have hnd0 : natDigits val = natDigitsAux (val + 1) val := by rw [natDigits, if_neg h0]
      obtain ⟨d, cs, hd1, hd9, heq⟩ :=
        natDigitsAux_head (val + 1) val (Nat.pos_of_ne_zero h0) (Nat.le_succ val)
      have hnd : natDigits val = digitChar d :: cs := by rw [hnd0, heq]
      obtain ⟨_, _, _, hplus, hminus, hm, _⟩ := digitChar_facts d hd9
      simp only [ParseNumber]
      rw [trimSpace_of_all_nonspace _ (fun c hc => (hmemfacts c hc).2.2.2.2)]
      rw [if_neg (by rw [hnd]; intro hco; exact hm (by injection hco))]
      rw [if_neg (by rw [hnd]; intro hco; exact hm (by injection hco))]
      rw [if_neg (by rw [hnd]; simp)]
      rw [if_neg (by
        rw [hnd]
        rintro (hco | hco)
        · exact hplus (by injection hco)
        · exact hminus (by injection hco))]
      rw [hnd]
      dsimp only
      rw [if_neg hplus, if_neg hminus]
      rw [show splitChar '.' (digitChar d :: cs) = [digitChar d :: cs] by
        rw [← hnd, splitChar, splitCharAux_no_sep '.' _
          (fun c hc => (hmemfacts c hc).1) []]
        rw [hnd]
        rfl]
      rw [if_pos (show [digitChar d :: cs].length = 1 from rfl)]
      rw [← hnd, parseUint_natDigits val hval]
  · -- Negative: render is '-' followed by the digit string
    have hval : val ≤ MaxUint64 := hwf.2.2
    show ParseNumber ('-' :: natDigits val) = Except.ok ⟨NumberKind.Negative, val, 0⟩
    simp only [ParseNumber]
    rw [trimSpace_of_all_nonspace _ (by
      intro c hc
      rcases List.mem_cons.mp hc with rfl | hc2
      · decide
      · exact (hmemfacts c hc2).2.2.2.2)]
    rw [if_neg (by intro hco; exact absurd (by injection hco : '-' = 'm') (by decide))]
    rw [if_neg (by intro hco; exact absurd (by injection hco : '-' = 'm') (by decide))]
    rw [if_neg (by simp)]
    rw [if_neg (by
      rintro (hco | hco)
      · exact absurd (by injection hco : '-' = '+') (by decide)
      · exact absurd (by injection hco : natDigits val = []) (natDigits_ne_nil val))]
    dsimp only
    rw [if_neg (show ¬ (('-' : Char) = '+') by decide)]
    rw [if_pos (show ('-' : Char) = '-' from rfl)]
    rw [show splitChar '.' (natDigits val) = [natDigits val] by
      rw [splitChar, splitCharAux_no_sep '.' _ (fun c hc => (hmemfacts c hc).1) []]
      rfl]
    rw [if_pos (show [natDigits val].length = 1 from rfl)]
    rw [parseUint_natDigits val hval]
  · -- MinNumber: wellformedness pins the value to the canonical sentinel
    have hmin := hwf.1 rfl
    rw [minNumber] at hmin
    injection hmin with _ h2 _
    subst h2
    decide
  · -- MaxNumber
    have hmax := hwf.2.1 rfl
    rw [maxNumber] at hmax
    injection hmax with _ h2 _
    subst h2
    decide

/-! ### Claim theorems -/

/-- C1: once a candidate position has been located in the base (no base
advance is needed when the base range does not end below the candidate's
low), a candidate range whose high is the MaxSentinel (and whose low is
not the MinSentinel) is treated as satisfied by `Contains` without any
check that the base range's high edge is unbounded: `Contains` returns
`true` even against a fully bounded base range enclosing only the
candidate's low. -/
theorem claim_C1_contains_accepts_unbounded_candidate_high
    (b c : YRange)
    (_hbmin : b.Min.Kind = NumberKind.Positive) (_hbmax : b.Max.Kind = NumberKind.Positive)
    (hclo : c.Min.Kind ≠ NumberKind.MinNumber) (hchi : c.Max.Kind = NumberKind.MaxNumber)
    (_hinlo : c.Min.Less b.Min = false) (hinhi : b.Max.Less c.Min = false) :
    YangRange.Contains [b] [c] = true := by
  show containsLoop b [] [c] = true
  simp [containsLoop, advanceBase, hclo, hchi, hinhi]

/-- C1 witness: base `0..255` (both edges bounded), candidate `10..max`
with `10` lying inside the base range — `Contains` accepts it. -/
theorem claim_C1_witness :
    YangRange.Contains [⟨⟨NumberKind.Positive, 0, 0⟩, ⟨NumberKind.Positive, 255, 0⟩⟩]
      [⟨⟨NumberKind.Positive, 10, 0⟩, maxNumber⟩] = true :=
  claim_C1_contains_accepts_unbounded_candidate_high
    ⟨⟨NumberKind.Positive, 0, 0⟩, ⟨NumberKind.Positive, 255, 0⟩⟩
    ⟨⟨NumberKind.Positive, 10, 0⟩, maxNumber⟩
    rfl rfl (by decide) rfl (by decide) (by decide)

/-- C2: contrary to the claim, `Validate` does not reject every sorted set
in which some interval's low is less than the high of the interval before
it: the running comparison point `p` is never advanced past `r[0]`, so
`1..2|3..10|5..15` — where `5 < 10`, an overlap between the second and
third members — passes `Validate` and `ParseRanges` happily returns a
(merged) result, although the function's own contract ("returns an error
if r has ... overlapping ranges") and the claim demand rejection.  The
claim's own two-member example, whose overlap involves the first member,
is rejected as stated. -/
theorem claim_C2_validate_misses_overlap_beyond_first :
    ParseRanges "1..2|3..10|5..15".toList =
      Except.ok [⟨⟨NumberKind.Positive, 1, 0⟩, ⟨NumberKind.Positive, 15, 0⟩⟩] ∧
    (YangRange.Validate
      [⟨⟨NumberKind.Positive, 1, 0⟩, ⟨NumberKind.Positive, 2, 0⟩⟩,
       ⟨⟨NumberKind.Positive, 3, 0⟩, ⟨NumberKind.Positive, 10, 0⟩⟩,
       ⟨⟨NumberKind.Positive, 5, 0⟩, ⟨NumberKind.Positive, 15, 0⟩⟩]).2 = none ∧
    (Number.Less ⟨NumberKind.Positive, 5, 0⟩ ⟨NumberKind.Positive, 10, 0⟩ = true) ∧
    ParseRanges "1..10|5..15".toList = Except.error "overlapping ranges" := by decide

/-- C3 counterexample: trichotomy fails for values parsed from
decimal-point literals.  `1.5` and `1.7` both parse (so both are
constructible), are structurally unequal (their `Decimal` components
differ), yet neither is `Less` than the other because `Less` compares
only the integral `Value` field, which is `1` for both. -/
theorem claim_C3_counterexample :
    ParseNumber "1.5".toList = Except.ok ⟨NumberKind.Positive, 1, mkRat 3 2⟩ ∧
    ParseNumber "1.7".toList = Except.ok ⟨NumberKind.Positive, 1, mkRat 17 10⟩ ∧
    Number.Less ⟨NumberKind.Positive, 1, mkRat 3 2⟩ ⟨NumberKind.Positive, 1, mkRat 17 10⟩
      = false ∧
    Number.Equal ⟨NumberKind.Positive, 1, mkRat 3 2⟩ ⟨NumberKind.Positive, 1, mkRat 17 10⟩
      = false ∧
    Number.Less ⟨NumberKind.Positive, 1, mkRat 17 10⟩ ⟨NumberKind.Positive, 1, mkRat 3 2⟩
      = false := by decide

/-- C3 (amended): for any two constructible values whose `Decimal`
components are zero — everything `FromInt`/`FromUint` produce and every
parse of a literal without a decimal point — exactly one of `a.Less b`,
`a.Equal b`, `b.Less a` holds; and for every constructible value,
decimal-literal values included, the MinSentinel is less than or equal
to it and the MaxSentinel greater than or equal to it. -/
theorem claim_C3_order_totality_amended (a b : Number)
    (ha : Constructible a) (hb : Constructible b) :
    (a.Decimal = 0 → b.Decimal = 0 →
      ((a.Less b = true ∧ a.Equal b = false ∧ b.Less a = false) ∨
       (a.Less b = false ∧ a.Equal b = true ∧ b.Less a = false) ∨
       (a.Less b = false ∧ a.Equal b = false ∧ b.Less a = true))) ∧
    (minNumber.Less a = true ∨ minNumber.Equal a = true) ∧
    (a.Less maxNumber = true ∨ a.Equal maxNumber = true) :=
  ⟨fun hda hdb =>
     wf_trichotomy a b (constructible_wf a ha) (constructible_wf b hb) hda hdb,
   wf_min_le a (constructible_wf a ha),
   wf_le_max a (constructible_wf a ha)⟩

/-- C3 witness at `FromInt 2` and `FromInt 5`, the trichotomy implication
discharged at their (zero) `Decimal` components. -/
theorem claim_C3_witness :
    (((FromInt 2).Less (FromInt 5) = true ∧ (FromInt 2).Equal (FromInt 5) = false ∧
        (FromInt 5).Less (FromInt 2) = false) ∨
     ((FromInt 2).Less (FromInt 5) = false ∧ (FromInt 2).Equal (FromInt 5) = true ∧
        (FromInt 5).Less (FromInt 2) = false) ∨
     ((FromInt 2).Less (FromInt 5) = false ∧ (FromInt 2).Equal (FromInt 5) = false ∧
        (FromInt 5).Less (FromInt 2) = true)) ∧
    (minNumber.Less (FromInt 2) = true ∨ minNumber.Equal (FromInt 2) = true) ∧
    ((FromInt 2).Less maxNumber = true ∨ (FromInt 2).Equal maxNumber = true) :=
  have h := claim_C3_order_totality_amended (FromInt 2) (FromInt 5)
    (Or.inl ⟨2, by decide, by decide, rfl⟩)
    (Or.inl ⟨5, by decide, by decide, rfl⟩)
  ⟨h.1 (by decide) (by decide), h.2.1, h.2.2⟩

/-- C4 counterexample: the Positive-overflow case is not the only failure
of `Int()`.  `-9223372036854775809` parses to a constructible Negative
value of magnitude `2^63 + 1`, whose `Int()` also fails with the overflow
error although its kind is not Positive. -/
theorem claim_C4_counterexample :
    ParseNumber "-9223372036854775809".toList
      = Except.ok ⟨NumberKind.Negative, 9223372036854775809, 0⟩ ∧
    Number.Int ⟨NumberKind.Negative, 9223372036854775809, 0⟩
      = Except.error "signed integer overflow" ∧
    (⟨NumberKind.Negative, 9223372036854775809, 0⟩ : Number).Kind
      ≠ NumberKind.Positive := by decide

/-- C4 (amended): for every constructible value, `Int()` maps the
MinSentinel to the signed minimum and the MaxSentinel to the signed
maximum without error, and fails (with the overflow error) exactly when
the value is Positive with magnitude above `2^63 - 1` or Negative with
magnitude above `2^63`. -/
theorem claim_C4_int_amended (n : Number) (_h : Constructible n) :
    Number.Int minNumber = Except.ok MinInt64 ∧
    Number.Int maxNumber = Except.ok MaxInt64 ∧
    ((∃ e, n.Int = Except.error e) ↔
      ((n.Kind = NumberKind.Positive ∧ MaxInt64Nat < n.Value) ∨
       (n.Kind = NumberKind.Negative ∧ AbsMinInt64 < n.Value))) := by
  refine ⟨rfl, rfl, ?_⟩
  rcases n with ⟨k, v, d⟩
  cases k
  · -- Positive
    by_cases hv : v ≤ MaxInt64Nat
    · simp [Number.Int, hv]
    · simp [Number.Int, hv]
      omega
  · -- Negative
    by_cases h1 : v = AbsMinInt64
    · simp [Number.Int, h1, AbsMinInt64]
    · by_cases h2 : v < AbsMinInt64
      · simp [Number.Int, h1, h2]
        omega
      · simp [Number.Int, h1, h2]
        omega
  · simp [Number.Int]
  · simp [Number.Int]

/-- C4 witness at `FromInt 5` (no overflow reported, matching the
characterization). -/
theorem claim_C4_witness :
    Number.Int minNumber = Except.ok MinInt64 ∧
    Number.Int maxNumber = Except.ok MaxInt64 ∧
    ((∃ e, (FromInt 5).Int = Except.error e) ↔
      (((FromInt 5).Kind = NumberKind.Positive ∧ MaxInt64Nat < (FromInt 5).Value) ∨
       ((FromInt 5).Kind = NumberKind.Negative ∧ AbsMinInt64 < (FromInt 5).Value))) :=
  claim_C4_int_amended (FromInt 5) (Or.inl ⟨5, by decide, by decide, rfl⟩)

/-- C5 counterexample: the render/parse round trip fails for values
parsed from decimal-point literals.  `1.5` parses to a value carrying
`Decimal = 3/2`, its rendering is the bare `"1"` (`String` prints only
the integral `Value`), and parsing that back yields a value with
`Decimal = 0` which is not `Equal` to the original. -/
theorem claim_C5_counterexample :
    ParseNumber "1.5".toList = Except.ok ⟨NumberKind.Positive, 1, mkRat 3 2⟩ ∧
    Number.render ⟨NumberKind.Positive, 1, mkRat 3 2⟩ = "1".toList ∧
    ParseNumber "1".toList = Except.ok ⟨NumberKind.Positive, 1, 0⟩ ∧
    Number.Equal ⟨NumberKind.Positive, 1, 0⟩ ⟨NumberKind.Positive, 1, mkRat 3 2⟩
      = false := by decide

/-- C5 (amended): for every constructible value whose `Decimal` component
is zero (everything except parses of decimal-point literals),
`ParseNumber` applied to the rendering returns exactly the original
value; and the strings `min` and `max` parse back to the sentinel
values. -/
theorem claim_C5_roundtrip_amended (v : Number) (h : Constructible v)
    (hd : v.Decimal = 0) :
    ParseNumber (Number.render v) = Except.ok v ∧
    ParseNumber "min".toList = Except.ok minNumber ∧
    ParseNumber "max".toList = Except.ok maxNumber :=
  ⟨parseNumber_render v (constructible_wf v h) hd, by decide, by decide⟩

/-- C5 witness at `FromInt 7`. -/
theorem claim_C5_witness :
    ParseNumber (Number.render (FromInt 7)) = Except.ok (FromInt 7) ∧
    ParseNumber "min".toList = Except.ok minNumber ∧
    ParseNumber "max".toList = Except.ok maxNumber :=
  claim_C5_roundtrip_amended (FromInt 7) (Or.inl ⟨7, by decide, by decide, rfl⟩) (by decide)

/-- C6: for any set on which `Validate` succeeded (returning the sorted
array `S1`), `coalesce` is idempotent — in fact `coalesce ∘ coalesce =
coalesce` holds for every list of ranges, because the output always
satisfies the gap invariant and the loop copies gapped input. -/
theorem claim_C6_coalesce_idempotent (S S1 : YangRange)
    (_h : YangRange.Validate S = (S1, none)) :
    coalesce (coalesce S1) = coalesce S1 :=
  coalesce_idem S1

/-- C6 witness at the validated singleton set `1..5`. -/
theorem claim_C6_witness :
    YangRange.Validate [⟨⟨NumberKind.Positive, 1, 0⟩, ⟨NumberKind.Positive, 5, 0⟩⟩]
      = ([⟨⟨NumberKind.Positive, 1, 0⟩, ⟨NumberKind.Positive, 5, 0⟩⟩], none) ∧
    coalesce (coalesce [⟨⟨NumberKind.Positive, 1, 0⟩, ⟨NumberKind.Positive, 5, 0⟩⟩])
      = coalesce [⟨⟨NumberKind.Positive, 1, 0⟩, ⟨NumberKind.Positive, 5, 0⟩⟩] :=
  ⟨by decide,
   claim_C6_coalesce_idempotent
     [⟨⟨NumberKind.Positive, 1, 0⟩, ⟨NumberKind.Positive, 5, 0⟩⟩]
     [⟨⟨NumberKind.Positive, 1, 0⟩, ⟨NumberKind.Positive, 5, 0⟩⟩] (by decide)⟩

/-- C7: `ParseRanges "1..5|6..10"` returns the single coalesced interval
`1..10` (adjacent intervals merge because `5 + 1 < 6` fails), while
`ParseRanges "1..5|7..10"` keeps the two intervals apart (`5 + 1 < 7`). -/
theorem claim_C7_parse_coalesce_examples :
    ParseRanges "1..5|6..10".toList =
      Except.ok [⟨⟨NumberKind.Positive, 1, 0⟩, ⟨NumberKind.Positive, 10, 0⟩⟩] ∧
    ParseRanges "1..5|7..10".toList =
      Except.ok [⟨⟨NumberKind.Positive, 1, 0⟩, ⟨NumberKind.Positive, 5, 0⟩⟩,
                 ⟨⟨NumberKind.Positive, 7, 0⟩, ⟨NumberKind.Positive, 10, 0⟩⟩] := by decide

/-- C8: `Contains` answers `true` the moment either operand is empty, so
for a validated, coalesced set `S` both `Contains S ∅` and `Contains ∅ S`
hold. -/
theorem claim_C8_contains_empty (S : YangRange)
    (_hval : (YangRange.Validate S).2 = none) (_hcoal : coalesce S = S) :
    YangRange.Contains S [] = true ∧ YangRange.Contains [] S = true := by
  constructor <;> cases S <;> rfl

/-- C8 witness at the validated, coalesced set `1..5`. -/
theorem claim_C8_witness :
    YangRange.Contains [⟨⟨NumberKind.Positive, 1, 0⟩, ⟨NumberKind.Positive, 5, 0⟩⟩] [] = true ∧
    YangRange.Contains [] [⟨⟨NumberKind.Positive, 1, 0⟩, ⟨NumberKind.Positive, 5, 0⟩⟩] = true :=
  claim_C8_contains_empty [⟨⟨NumberKind.Positive, 1, 0⟩, ⟨NumberKind.Positive, 5, 0⟩⟩]
    (by decide) (by decide)

/-- C9 counterexample: `Validate` sorts its operand in place before
checking anything, so a failing call does mutate the set it was invoked
on: validating `[5..15, 1..10]` returns the overlap error together with
the reordered array, which differs from the original. -/
theorem claim_C9_counterexample :
    YangRange.Validate
        [⟨⟨NumberKind.Positive, 5, 0⟩, ⟨NumberKind.Positive, 15, 0⟩⟩,
         ⟨⟨NumberKind.Positive, 1, 0⟩, ⟨NumberKind.Positive, 10, 0⟩⟩]
      = ([⟨⟨NumberKind.Positive, 1, 0⟩, ⟨NumberKind.Positive, 10, 0⟩⟩,
          ⟨⟨NumberKind.Positive, 5, 0⟩, ⟨NumberKind.Positive, 15, 0⟩⟩],
         some "overlapping ranges") ∧
    ([⟨⟨NumberKind.Positive, 1, 0⟩, ⟨NumberKind.Positive, 10, 0⟩⟩,
      ⟨⟨NumberKind.Positive, 5, 0⟩, ⟨NumberKind.Positive, 15, 0⟩⟩] : YangRange)
      ≠ [⟨⟨NumberKind.Positive, 5, 0⟩, ⟨NumberKind.Positive, 15, 0⟩⟩,
         ⟨⟨NumberKind.Positive, 1, 0⟩, ⟨NumberKind.Positive, 10, 0⟩⟩] := by decide

/-- C9 (amended): the only in-place edit a failing (or succeeding)
`Validate` performs is the sort itself — the array it leaves behind is
always a permutation of the original, with every interval value intact. -/
theorem claim_C9_validate_only_permutes (r : YangRange) :
    List.Perm ((YangRange.Validate r).1) r :=
  validate_perm r

/-- C10: `ParseNumber` trims surrounding white space before all other
processing — parsing any string equals parsing its trimmed form, a padded
literal parses, and a whitespace-only string fails with the empty-input
error. -/
theorem claim_C10_trims_before_parsing :
    (∀ s : List Char, ParseNumber s = ParseNumber (trimSpace s)) ∧
    ParseNumber " 5 ".toList = Except.ok ⟨NumberKind.Positive, 5, 0⟩ ∧
    ParseNumber "   ".toList = Except.error "converting empty string to number" := by
  refine ⟨?_, by decide, by decide⟩
  intro s
  simp only [ParseNumber, trimSpace_idem]

end Yang
